import Mathlib

/-!
Verification development for the pinecone-cefr-agent repository.

The repository has two Python source files:
* `app.py` — a Flask service exposing `GET /get_context`: it parses a free-text
  `user_message` into query parameters, embeds the topic, queries a Pinecone
  index with a metadata filter, and returns up to 5 unique filenames.
* `process.py` — an ingestion job: it loads a metadata manifest, chunks each
  text file on blank lines, embeds each chunk, and upserts batches of records.

This file shallowly embeds both: pure functions are translated directly; the
external services (SentenceTransformer `model.encode`, Pinecone `index.query` /
`index.upsert`) are abstract function parameters; filesystem reads are a
`String → Option String` parameter.  All string processing is done over
`List Char` so the definitions compute by kernel reduction; the inputs the
claims exercise are ASCII, and the Python `str`/`re` semantics embedded here
are their ASCII fragments.
-/

namespace CefrAgent

/-- ASCII fragment of the Python regex class `\s` (whitespace):
space, tab, newline, carriage return, vertical tab, form feed. -/
def isPyWs (c : Char) : Bool :=
  c == ' ' || c == '\t' || c == '\n' || c == '\r' || c == '\x0b' || c == '\x0c'

/-- ASCII fragment of the Python regex class `\w` (word characters). -/
def isPyWord (c : Char) : Bool :=
  c.isAlphanum || c == '_'

/-- The character class `[\w\s]` appearing in the key part of the pattern
`^\s*([\w\s]+):\s*(.*?)\s*$` of `app.py` line 49. -/
def isKeyChar (c : Char) : Bool :=
  isPyWord c || isPyWs c

/-- Drop trailing Python-whitespace characters. -/
def rtrimWs (l : List Char) : List Char :=
  (l.reverse.dropWhile isPyWs).reverse

/-- Python `str.strip()` on a character list (ASCII fragment). -/
def pyStripList (l : List Char) : List Char :=
  rtrimWs (l.dropWhile isPyWs)

/-- Python `str.strip()` (ASCII fragment). -/
def pyStrip (s : String) : String :=
  ⟨pyStripList s.data⟩

/-- Python `str.lower()` (ASCII fragment), character by character. -/
def pyLower (s : String) : String :=
  ⟨s.data.map Char.toLower⟩

/-- Python `str.upper()` (ASCII fragment), character by character. -/
def pyUpper (s : String) : String :=
  ⟨s.data.map Char.toUpper⟩

/-- Python `str.isdigit()` (ASCII fragment): non-empty and all digits. -/
def pyIsDigit (s : String) : Bool :=
  !s.data.isEmpty && s.data.all Char.isDigit

/-- Python `key.replace(" ", "_")` — the separator is a single character, so
this is a character map. -/
def replaceSpaceUnderscore (s : String) : String :=
  ⟨s.data.map (fun c => if c == ' ' then '_' else c)⟩

/-- Python `value.split(',')` (single-character separator): `splitComma acc l`
splits `l` on every comma, `acc` holding the current piece reversed. -/
def splitComma : List Char → List Char → List String
  | acc, [] => [⟨acc.reverse⟩]
  | acc, ',' :: rest => ⟨acc.reverse⟩ :: splitComma [] rest
  | acc, c :: rest => splitComma (c :: acc) rest

/-- The suffix of `l` starting at its last newline, or `none` if `l` has no
newline.  Used to locate where the MULTILINE `$` anchor ends a match inside a
trailing whitespace run. -/
def suffixFromLastNewline : List Char → Option (List Char)
  | [] => none
  | c :: cs =>
    match suffixFromLastNewline cs with
    | some suf => some suf
    | none => if c == '\n' then some (c :: cs) else none

/-- One attempted match of the pattern `^\s*([\w\s]+):\s*(.*?)\s*$`
(`re.MULTILINE | re.IGNORECASE`; no letters occur in the pattern, so
IGNORECASE is inert) at a line start, `l` being the rest of the input.
Returns the two captured groups and the rest of the input after the match.

Backtracking semantics of the pattern, specialised:
* `\s*([\w\s]+):` — since every character matched by `\s*` or `[\w\s]+` is in
  `[\w\s]` and `:` is not, the `:` can only be the first character after the
  maximal `[\w\s]` run from the current position; `\s*` greedily takes the
  maximal whitespace prefix of that run, but backs off one character when the
  run is all whitespace so that `[\w\s]+` matches at least one character.
* `\s*(.*?)\s*$` — the first `\s*` greedily takes the maximal whitespace run
  (which may cross newlines); `.` does not match a newline, so the lazy group
  grows within the line starting there, and the shortest extent from which
  `\s*$` succeeds captures that line minus its trailing whitespace; the final
  greedy `\s*` then runs to the last newline of the following whitespace run
  (where `$` matches), or to the end of the input if only whitespace remains. -/
def matchKV (l : List Char) : Option ((String × String) × List Char) :=
  let run := l.takeWhile isKeyChar
  match l.drop run.length with
  | ':' :: afterColon =>
    if run.isEmpty then none
    else
      let ws := run.takeWhile isPyWs
      let key : List Char :=
        if ws.length == run.length then run.drop (run.length - 1) else run.drop ws.length
      let afterA := afterColon.dropWhile isPyWs
      let line := afterA.takeWhile (fun c => !(c == '\n'))
      let value := rtrimWs line
      let bRest := afterA.drop value.length
      let wsB := bRest.takeWhile isPyWs
      let afterB := bRest.drop wsB.length
      let rest : List Char :=
        if afterB.isEmpty then []
        else
          -- here `wsB` necessarily contains the newline ending the value line
          match suffixFromLastNewline wsB with
          | some suf => suf ++ afterB
          | none => afterB
      some ((⟨key⟩, ⟨value⟩), rest)
  | _ => none

/-- Scanning loop of `re.findall` for the pattern above: the pattern starts
with `^`, so a match can only begin at position 0 or right after a newline
(`atStart`); after a failed attempt the scan advances one character, after a
successful one it resumes at the end of the match.  `fuel` bounds the number
of steps; `findall` supplies enough for the whole input. -/
def findAllAux : Nat → List Char → Bool → List (String × String)
  | 0, _, _ => []
  | _ + 1, [], _ => []
  | fuel + 1, l, atStart =>
    match l, atStart, matchKV l with
    | _, true, some (kv, rest) =>
      let consumed := l.length - rest.length
      kv :: findAllAux fuel rest (((l.get? (consumed - 1)).getD ' ') == '\n')
    | c :: cs, _, _ => findAllAux fuel cs (c == '\n')
    | [], _, _ => []

/-- Embedding of `re.findall(r"^\s*([\w\s]+):\s*(.*?)\s*$", message, re.MULTILINE | re.IGNORECASE)`
(`app.py` lines 49-50). -/
def findall (message : String) : List (String × String) :=
  findAllAux (message.data.length + 1) message.data true

/-- First index at which `pat` occurs in the third argument (an index
accumulator threads the position): Python `str.find`, returning `none` for
-1. -/
def findSubAux (pat : List Char) : List Char → Nat → Option Nat
  | [], i => if pat.isEmpty then some i else none
  | l@(_ :: cs), i => if pat.isPrefixOf l then some i else findSubAux pat cs (i + 1)

/-- The `params` dictionary of `parse_user_message` (`app.py` lines 40-47). -/
structure Params where
  workflow : Option String
  cefr_level : Option String
  topic : Option String
  keywords : List String
  length : Option String
  main_text : Option String
deriving DecidableEq, Repr

/-- The initial `params` dictionary (`app.py` lines 40-47). -/
def initParams : Params :=
  { workflow := none, cefr_level := none, topic := none, keywords := [],
    length := none, main_text := none }

/-- One iteration of the `for key, value in matches:` loop of
`parse_user_message` (`app.py` lines 61-74). -/
def applyMatch (params : Params) (kv : String × String) : Params :=
  let key_lower := replaceSpaceUnderscore (pyStrip (pyLower kv.1))
  let value := pyStrip kv.2
  if key_lower = "workflow" ∧ pyLower value ∈ ["bespoke", "differentiated"] then
    { params with workflow := some (pyLower value) }
  else if key_lower = "level" ∧ pyUpper value ∈ ["A1", "A2", "B1", "B2", "C1"] then
    { params with cefr_level := some (pyUpper value) }
  else if key_lower = "topic" ∧ value ≠ "" then
    { params with topic := some value }
  else if key_lower = "keywords" ∧ value ≠ "" then
    { params with keywords := ((splitComma [] value.data).map pyStrip).filter (fun k => !(k == "")) }
  else if key_lower = "length" ∧ pyIsDigit value then
    { params with length := some value }
  else params

/-- Body of `parse_user_message` up to (and excluding) the final required-field check:
the regex scan, the `Main Text:` special case (`app.py` lines 52-58: the label
is located case-insensitively, everything after it is stripped and stored as
`main_text`, and the pairs whose key lower-cases and strips to `"main text"`
are removed from `matches`), and the key/value loop. -/
def scannedParams (message : String) : Params :=
  let kvMatches := findall message
  match findSubAux ("main text:".data) (pyLower message).data 0 with
  | some idx =>
    let main_text_content := pyStrip ⟨message.data.drop (idx + 10)⟩
    let params0 :=
      { initParams with
          main_text := if main_text_content = "" then none else some main_text_content }
    let kvMatches2 := kvMatches.filter (fun kv => !(pyStrip (pyLower kv.1) == "main text"))
    kvMatches2.foldl applyMatch params0
  | none => kvMatches.foldl applyMatch initParams

/-- Python truthiness of the optional string fields of `params`:
`None` and the empty string are falsy. -/
def truthyOptStr : Option String → Bool
  | none => false
  | some s => !(s == "")

/-- Embedding of `parse_user_message` (`app.py` lines 29-81): scan, then return `None` if
`workflow`, `cefr_level` or `topic` is falsy (`app.py` lines 76-79). -/
def parse_user_message (message : String) : Option Params :=
  let params := scannedParams message
  if !truthyOptStr params.workflow || !truthyOptStr params.cefr_level
      || !truthyOptStr params.topic then
    none
  else
    some params

/-- One ranked match returned by `index.query`: only the `filename` metadata
field is consumed by the endpoint (`app.py` line 139); `match.metadata.get`
returns `None` when the field is absent. -/
structure QMatch where
  filename : Option String
deriving DecidableEq, Repr

/-- A condition of the Pinecone metadata filter: `{"$eq": v}` or `{"$in": vs}`. -/
inductive FilterCond where
  | eq (v : String)
  | inList (vs : List String)
deriving DecidableEq, Repr

/-- The arguments of one `index.query(vector=..., top_k=..., filter=...)` call
(`app.py` lines 126-131). -/
structure QueryCall where
  vector : List Float
  topK : Nat
  filter : List (String × FilterCond)

/-- The two external services used by the endpoint: `model.encode(text).tolist()`
and `index.query`, abstracted as total functions. -/
structure Backend where
  encode : String → List Float
  query : List Float → Nat → List (String × FilterCond) → List QMatch

/-- The HTTP query arguments of a request to `GET /get_context`.  The handler
reads only `user_message` (`app.py` line 92); the discrete fields the spec
lists for the endpoint are carried here to model requests that supply them. -/
structure Args where
  user_message : Option String
  workflow : Option String
  cefr_level : Option String
  topic : Option String
  keywords : Option String
  length : Option String

/-- A request carrying only `user_message`. -/
def msgArgs (m : String) : Args :=
  ⟨some m, none, none, none, none, none⟩

/-- The JSON response of the endpoint together with its HTTP status code. -/
inductive ApiResponse where
  | success (filenames : List String) (code : Nat)
  | error (message : String) (code : Nat)
deriving DecidableEq, Repr

/-- The observable behaviour of one request: the response plus the calls made
to the embedding model and to the vector index, in order. -/
structure HandlerTrace where
  response : ApiResponse
  encodeCalls : List String
  queryCalls : List QueryCall

/-- The `for match in query_results.matches:` loop of `get_context`
(`app.py` lines 136-144): walk matches in rank order, skip falsy (`None` or
empty) filenames and ones already seen, append to `unique_filenames`, and
break once 5 are collected. -/
def extractAux : List QMatch → List String → List String → List String
  | [], _, unique_filenames => unique_filenames
  | m :: ms, seen, unique_filenames =>
    match m.filename with
    | none => extractAux ms seen unique_filenames
    | some f =>
      if f ≠ "" ∧ f ∉ seen then
        if (unique_filenames ++ [f]).length ≥ 5 then unique_filenames ++ [f]
        else extractAux ms (f :: seen) (unique_filenames ++ [f])
      else extractAux ms seen unique_filenames

/-- Extraction of unique filenames from ranked matches, starting from the
empty `unique_filenames` list and empty `seen` set (`app.py` lines 136-137). -/
def extractUnique (ms : List QMatch) : List String :=
  extractAux ms [] []

/-- The `GET /get_context` handler (`app.py` lines 85-157): reject a missing
or empty `user_message` with 400, parse it (400 on failure), build the
metadata filter (`$eq` on `cefr_level` and `topic`, plus `$in` on `keywords`
only when the keyword list is non-empty), embed the topic, query the index
for the top 20 matches, and return the deduplicated filenames with 200.
After a successful parse the three required fields are `some _` (enforced by
`parse_user_message`), so the `getD ""` defaults are never taken. -/
def get_context (args : Args) (be : Backend) : HandlerTrace :=
  match args.user_message with
  | none => ⟨.error "Missing user_message parameter." 400, [], []⟩
  | some user_message =>
    if user_message = "" then
      ⟨.error "Missing user_message parameter." 400, [], []⟩
    else
      match parse_user_message user_message with
      | none => ⟨.error "Could not parse required parameters from user_message." 400, [], []⟩
      | some params =>
        let cefr_level := params.cefr_level.getD ""
        let topic := params.topic.getD ""
        let keywords := params.keywords
        let metadata_filter :=
          [("cefr_level", FilterCond.eq cefr_level), ("topic", FilterCond.eq topic)]
            ++ (if keywords ≠ [] then [("keywords", FilterCond.inList keywords)] else [])
        let query_vector := be.encode topic
        let query_matches := be.query query_vector 20 metadata_filter
        ⟨.success (extractUnique query_matches) 200, [topic], [⟨query_vector, 20, metadata_filter⟩]⟩

/-! ## Ingestion job (`process.py`) -/

/-- One entry of the metadata manifest (`C1_metadata.json`): an object with
`filename`, `cefr_level`, `topic`, `keywords`. -/
structure MetaEntry where
  filename : String
  cefr_level : String
  topic : String
  keywords : List String

/-- The metadata attached to each upserted chunk (`process.py` lines 49-55). -/
structure RecMetadata where
  cefr_level : String
  filename : String
  topic : String
  keywords : List String
  text : String

/-- One record `(chunk_id, embedding, metadata)` passed to `index.upsert`
(`process.py` line 56). -/
structure IndexRecord where
  id : String
  vector : List Float
  metadata : RecMetadata

/-- Embedding of `os.path.basename` for the Windows paths `process.py` builds: the part
after the last `/` or backslash. -/
def basename (p : String) : String :=
  ⟨(p.data.reverse.takeWhile (fun c => !(c == '/') && !(c == '\\'))).reverse⟩

/-- Embedding of `os.path.join(DATA_DIR, filename)` on Windows for a directory without a
trailing separator: insert a backslash. -/
def joinPath (d f : String) : String :=
  d ++ "\\" ++ f

/-- Python `text.split("\n\n")` (`process.py` line 41): split on each
non-overlapping, leftmost-first occurrence of a double newline; `acc` holds
the current piece reversed. -/
def splitDoubleNewline : List Char → List Char → List String
  | acc, '\n' :: '\n' :: rest => ⟨acc.reverse⟩ :: splitDoubleNewline [] rest
  | acc, c :: rest => splitDoubleNewline (c :: acc) rest
  | acc, [] => [⟨acc.reverse⟩]

/-- Chunking of a file (`process.py` lines 41-42): split on double newlines,
strip each chunk, drop the empty ones. -/
def pyChunks (text : String) : List String :=
  ((splitDoubleNewline [] text.data).map pyStrip).filter (fun c => !(c == ""))

/-- Embedding of `process_file` (`process.py` lines 32-58): read the file (a missing file
yields `[]` — the `FileNotFoundError` branch), chunk it, and build one record
per chunk with id `<basename>_<index>` and the shared metadata of the entry.
The filesystem is the `readFile` parameter; the embedding model is `encode`. -/
def process_file (filepath : String) (readFile : String → Option String)
    (metadata_dict : MetaEntry) (encode : String → List Float) : List IndexRecord :=
  match readFile filepath with
  | none => []
  | some text =>
    let chunks := pyChunks text
    chunks.enum.map (fun p =>
      { id := basename filepath ++ "_" ++ toString p.1
        vector := encode p.2
        metadata := { cefr_level := metadata_dict.cefr_level, filename := basename filepath,
                      topic := metadata_dict.topic, keywords := metadata_dict.keywords,
                      text := p.2 } })

/-- The outcome of one run of the ingestion job: whether it aborted at the
manifest-loading step, the batches passed to `index.upsert` (one call per
file, in order), and the two counters it reports. -/
structure IngestResult where
  aborted : Bool
  batches : List (List IndexRecord)
  files_processed : Nat
  vectors_upserted : Nat

/-- One iteration of the `for metadata_item in all_metadata:` loop
(`process.py` lines 86-95): process the file and, if any records came back,
upsert them as one batch and bump both counters. -/
def ingestStep (dataDir : String) (readFile : String → Option String)
    (encode : String → List Float) (acc : List (List IndexRecord) × Nat × Nat)
    (metadata_item : MetaEntry) : List (List IndexRecord) × Nat × Nat :=
  let filepath := joinPath dataDir metadata_item.filename
  let processed_data := process_file filepath readFile metadata_item encode
  if processed_data.isEmpty then acc
  else (acc.1 ++ [processed_data], acc.2.1 + 1, acc.2.2 + processed_data.length)

/-- The ingestion job (`process.py` lines 74-97): `all_metadata` is the result
of `load_metadata` (`none` models a missing or malformed manifest, in which
case the job exits before the loop — line 80); otherwise the loop runs over
the manifest entries. -/
def runIngestion (all_metadata : Option (List MetaEntry)) (dataDir : String)
    (readFile : String → Option String) (encode : String → List Float) : IngestResult :=
  match all_metadata with
  | none => ⟨true, [], 0, 0⟩
  | some entries =>
    let r := entries.foldl (ingestStep dataDir readFile encode) ([], 0, 0)
    ⟨false, r.1, r.2.1, r.2.2⟩

/-! ## Specification-side definitions used to state the claims -/

/-- The truthy filenames of the ranked matches, in rank order: the `filename`
metadata fields that are present and non-empty. -/
def truthyFilenames (ms : List QMatch) : List String :=
  ms.filterMap (fun m =>
    match m.filename with
    | some f => if f = "" then none else some f
    | none => none)

/-- First-seen-order deduplication: keep the first occurrence of each element.
(Stated from the claim wording, to compare with the code-side extraction.) -/
def firstSeenDedup (l : List String) : List String :=
  match l with
  | [] => []
  | x :: xs => x :: firstSeenDedup (xs.filter (fun y => !(y == x)))
termination_by l.length
decreasing_by
  simp only [List.length_cons]
  exact Nat.lt_succ_of_le (List.length_filter_le _ _)

/-! ## Helper lemmas -/

theorem extractAux_nil (seen u : List String) : extractAux [] seen u = u := rfl

theorem extractAux_cons_none (ms : List QMatch) (seen u : List String) :
    extractAux (⟨none⟩ :: ms) seen u = extractAux ms seen u := rfl

theorem extractAux_cons_some (f : String) (ms : List QMatch) (seen u : List String) :
    extractAux (⟨some f⟩ :: ms) seen u =
      if f ≠ "" ∧ f ∉ seen then
        if (u ++ [f]).length ≥ 5 then u ++ [f] else extractAux ms (f :: seen) (u ++ [f])
      else extractAux ms seen u := rfl

theorem truthyFilenames_nil : truthyFilenames [] = [] := rfl

theorem truthyFilenames_cons_none (ms : List QMatch) :
    truthyFilenames (⟨none⟩ :: ms) = truthyFilenames ms := rfl

theorem truthyFilenames_cons_some (f : String) (ms : List QMatch) :
    truthyFilenames (⟨some f⟩ :: ms) =
      if f = "" then truthyFilenames ms else f :: truthyFilenames ms := by
  by_cases h : f = "" <;> simp [truthyFilenames, List.filterMap_cons, h]

theorem firstSeenDedup_nil : firstSeenDedup [] = [] := by rw [firstSeenDedup]

theorem firstSeenDedup_cons (x : String) (xs : List String) :
    firstSeenDedup (x :: xs) = x :: firstSeenDedup (xs.filter (fun y => !(y == x))) := by
  rw [firstSeenDedup]

theorem mem_firstSeenDedup {a : String} :
    ∀ {l : List String}, a ∈ firstSeenDedup l → a ∈ l := by
  intro l
  induction l using firstSeenDedup.induct with
  | case1 => intro h; rw [firstSeenDedup_nil] at h; cases h
  | case2 x xs ih =>
    intro h
    rw [firstSeenDedup_cons] at h
    rcases List.mem_cons.mp h with h | h
    · exact h ▸ List.mem_cons_self _ _
    · exact List.mem_cons_of_mem _ (List.mem_filter.mp (ih h)).1

theorem firstSeenDedup_nodup : ∀ (l : List String), (firstSeenDedup l).Nodup := by
  intro l
  induction l using firstSeenDedup.induct with
  | case1 => rw [firstSeenDedup_nil]; exact List.nodup_nil
  | case2 x xs ih =>
    rw [firstSeenDedup_cons]
    refine List.Nodup.cons (fun hx => ?_) ih
    have h2 := (List.mem_filter.mp (mem_firstSeenDedup hx)).2
    simp at h2

theorem extractAux_eq (ms : List QMatch) :
    ∀ (seen u : List String), u.length < 5 →
      extractAux ms seen u =
        (u ++ firstSeenDedup ((truthyFilenames ms).filter
            (fun f => decide (f ∉ seen)))).take 5 := by
  induction ms with
  | nil =>
    intro seen u h
    rw [extractAux_nil, truthyFilenames_nil, List.filter_nil, firstSeenDedup_nil,
      List.append_nil, List.take_of_length_le (Nat.le_of_lt h)]
  | cons m ms ih =>
    intro seen u h
    rcases m with ⟨fo⟩
    rcases fo with _ | f
    · rw [extractAux_cons_none, truthyFilenames_cons_none]
      exact ih seen u h
    · rw [extractAux_cons_some, truthyFilenames_cons_some]
      by_cases hf : f ≠ "" ∧ f ∉ seen
      · rw [if_pos hf, if_neg hf.1,
          List.filter_cons_of_pos (by simpa using hf.2), firstSeenDedup_cons]
        by_cases h5 : (u ++ [f]).length ≥ 5
        · have hu4 : u.length = 4 := by
            simp only [List.length_append, List.length_cons, List.length_nil] at h5
            omega
          rw [if_pos h5, List.take_append_eq_append_take,
            List.take_of_length_le (by omega : u.length ≤ 5), hu4]
          simp
        · have hlt : (u ++ [f]).length < 5 := by omega
          rw [if_neg h5, ih (f :: seen) (u ++ [f]) hlt]
          have hfilters :
              List.filter (fun y => !(y == f)) (List.filter (fun g => decide (g ∉ seen))
                  (truthyFilenames ms)) =
                List.filter (fun g => decide (g ∉ f :: seen)) (truthyFilenames ms) := by
            rw [List.filter_filter]
            refine List.filter_congr (fun x _ => ?_)
            by_cases hxf : x = f <;> by_cases hxs : x ∈ seen <;>
              simp [hxf, hxs, List.mem_cons]
          rw [show (fun y => !(y == f)) = (fun y : String => !(y == f)) from rfl, hfilters]
          simp [List.append_assoc]
      · rw [if_neg hf, ih seen u h]
        rcases Classical.em (f = "") with hemp | hemp
        · rw [if_pos hemp]
        · have hfin : f ∈ seen := by
            rcases Classical.em (f ∈ seen) with h' | h'
            · exact h'
            · exact absurd ⟨hemp, h'⟩ hf
          rw [if_neg hemp, List.filter_cons_of_neg (by simpa using hfin)]

theorem extractAux_ne_empty (ms : List QMatch) :
    ∀ (seen u : List String), (∀ f ∈ u, f ≠ "") →
      ∀ f ∈ extractAux ms seen u, f ≠ "" := by
  induction ms with
  | nil => intro seen u hu; simpa [extractAux_nil] using hu
  | cons m ms ih =>
    intro seen u hu
    rcases m with ⟨fo⟩
    rcases fo with _ | f
    · rw [extractAux_cons_none]; exact ih seen u hu
    · rw [extractAux_cons_some]
      by_cases hf : f ≠ "" ∧ f ∉ seen
      · rw [if_pos hf]
        have hu2 : ∀ g ∈ u ++ [f], g ≠ "" := by
          intro g hg
          rcases List.mem_append.mp hg with hg | hg
          · exact hu g hg
          · simp only [List.mem_singleton] at hg; exact hg ▸ hf.1
        by_cases h5 : (u ++ [f]).length ≥ 5
        · rw [if_pos h5]; exact hu2
        · rw [if_neg h5]; exact ih (f :: seen) (u ++ [f]) hu2
      · rw [if_neg hf]; exact ih seen u hu

theorem extractAux_skip (m : QMatch) (hm : m.filename = none ∨ m.filename = some "") :
    ∀ (pre post : List QMatch) (seen u : List String),
      extractAux (pre ++ m :: post) seen u = extractAux (pre ++ post) seen u := by
  intro pre
  induction pre with
  | nil =>
    intro post seen u
    rcases m with ⟨fo⟩
    rcases hm with hm | hm <;> simp only at hm <;> subst hm
    · rw [List.nil_append, List.nil_append, extractAux_cons_none]
    · rw [List.nil_append, List.nil_append, extractAux_cons_some,
        if_neg (fun hc => hc.1 rfl)]
  | cons q pre ih =>
    intro post seen u
    rcases q with ⟨go⟩
    rcases go with _ | g
    · rw [List.cons_append, List.cons_append, extractAux_cons_none, extractAux_cons_none]
      exact ih post seen u
    · rw [List.cons_append, List.cons_append, extractAux_cons_some, extractAux_cons_some]
      by_cases hg : g ≠ "" ∧ g ∉ seen
      · rw [if_pos hg, if_pos hg]
        by_cases h5 : (u ++ [g]).length ≥ 5
        · rw [if_pos h5, if_pos h5]
        · rw [if_neg h5, if_neg h5]; exact ih post (g :: seen) (u ++ [g])
      · rw [if_neg hg, if_neg hg]; exact ih post seen u

theorem extractUnique_eq (ms : List QMatch) :
    extractUnique ms = (firstSeenDedup (truthyFilenames ms)).take 5 := by
  have h := extractAux_eq ms [] [] (by simp)
  simpa [extractUnique] using h

theorem extractUnique_length_le (ms : List QMatch) : (extractUnique ms).length ≤ 5 := by
  rw [extractUnique_eq, List.length_take]
  exact min_le_left _ _

theorem extractUnique_nodup (ms : List QMatch) : (extractUnique ms).Nodup := by
  rw [extractUnique_eq]
  exact List.Nodup.sublist (List.take_sublist _ _) (firstSeenDedup_nodup _)

theorem get_context_success_inv (args : Args) (be : Backend) (fns : List String) (code : Nat)
    (h : (get_context args be).response = ApiResponse.success fns code) :
    ∃ ms, fns = extractUnique ms := by
  rcases args with ⟨um, w, c, t, k, len⟩
  rcases um with _ | msg
  · simp [get_context] at h
  · by_cases hm : msg = ""
    · simp [get_context, hm] at h
    · rcases hp : parse_user_message msg with _ | p
      · simp [get_context, hm, hp] at h
      · simp [get_context, hm, hp] at h
        exact ⟨_, h.1.symm⟩

/-- A trivial concrete backend, used to instantiate theorems about the
endpoint at concrete inputs. -/
def trivialBackend : Backend :=
  { encode := fun _ => [], query := fun _ _ _ => [] }

/-- A request supplying the discrete parameters of the specified
query-parameter variant but no `user_message`. -/
def argsDiscrete : Args :=
  ⟨none, some "bespoke", some "B1", some "Travel", some "airport,hotel", some "200"⟩

/-! ## Claim theorems -/

/-- C1: for every query to the index, the filenames field of a success
response has at most 5 entries and no duplicates; the extraction of
`app.py` lines 136-144 returns exactly the first 5 of the truthy filenames
of the ranked matches deduplicated in first-seen rank order; and on matches
referencing filenames a,a,b,c,a,d,e,f in rank order it returns
[a,b,c,d,e]. -/
theorem claim1_filenames_dedup :
    (∀ (args : Args) (be : Backend) (fns : List String) (code : Nat),
        (get_context args be).response = ApiResponse.success fns code →
        fns.length ≤ 5 ∧ fns.Nodup) ∧
    (∀ ms : List QMatch,
        extractUnique ms = (firstSeenDedup (truthyFilenames ms)).take 5) ∧
    extractUnique (["a", "a", "b", "c", "a", "d", "e", "f"].map
        (fun f => QMatch.mk (some f))) = ["a", "b", "c", "d", "e"] := by
  refine ⟨?_, extractUnique_eq, by decide⟩
  intro args be fns code h
  obtain ⟨ms, hms⟩ := get_context_success_inv args be fns code h
  exact ⟨hms ▸ extractUnique_length_le ms, hms ▸ extractUnique_nodup ms⟩

/-- C1 witness: the theorem instantiated at a concrete request and backend. -/
theorem claim1_witness :
    ([] : List String).length ≤ 5 ∧ ([] : List String).Nodup :=
  claim1_filenames_dedup.1 (msgArgs "Workflow: bespoke\nLevel: B1\nTopic: Travel")
    trivialBackend [] 200 (by decide)

/-- C2 counterexample: a request supplying valid discrete parameters
(workflow bespoke, level B1, topic Travel, keywords, length) but no
`user_message` is rejected with a 400 client error and no backend call,
contradicting the claim that the endpoint accepts the discrete-parameter
variant. -/
theorem claim2_counterexample :
    get_context argsDiscrete trivialBackend =
      ⟨.error "Missing user_message parameter." 400, [], []⟩ := rfl

/-- C2 (amended): the endpoint accepts only the free-text `user_message`
field; every request whose `user_message` is missing or empty — including
one supplying all the discrete parameters — receives a 400 client error and
triggers no embedding or index call. -/
theorem claim2_only_user_message :
    ∀ (args : Args) (be : Backend),
      args.user_message = none ∨ args.user_message = some "" →
      get_context args be = ⟨.error "Missing user_message parameter." 400, [], []⟩ := by
  intro args be h
  rcases h with h | h <;> simp [get_context, h]

/-- C2 witness: the amended theorem applied to the discrete-parameter
request. -/
theorem claim2_witness :
    get_context argsDiscrete trivialBackend =
      ⟨.error "Missing user_message parameter." 400, [], []⟩ :=
  claim2_only_user_message argsDiscrete trivialBackend (Or.inl rfl)

/-- C9: message parsing is deterministic: parsing the same `user_message`
twice yields identical results (the embedded `parse_user_message` is a pure
function of the message). -/
theorem claim9_parse_deterministic :
    ∀ message : String, parse_user_message message = parse_user_message message :=
  fun _ => rfl

/-- C10: the filenames returned by the extraction of `app.py` lines 136-144
are never empty, and a ranked match whose `filename` metadata is absent or
empty is skipped: removing it from the match list does not change the
result. -/
theorem claim10_skip_falsy_filenames :
    (∀ (ms : List QMatch) (f : String), f ∈ extractUnique ms → f ≠ "") ∧
    (∀ (m : QMatch) (pre post : List QMatch),
        m.filename = none ∨ m.filename = some "" →
        extractUnique (pre ++ m :: post) = extractUnique (pre ++ post)) := by
  constructor
  · intro ms f hf
    exact extractAux_ne_empty ms [] [] (fun g hg => absurd hg (List.not_mem_nil g)) f hf
  · intro m pre post hm
    exact extractAux_skip m hm pre post [] []

/-- C10 witness: the theorem instantiated at concrete match lists. -/
theorem claim10_witness :
    extractUnique [⟨none⟩, ⟨some "x"⟩] = extractUnique [⟨some "x"⟩] ∧ "x" ≠ "" :=
  ⟨claim10_skip_falsy_filenames.2 ⟨none⟩ [] [⟨some "x"⟩] (Or.inl rfl),
   claim10_skip_falsy_filenames.1 [⟨some "x"⟩] "x" (by decide)⟩

/-- The scan loop never stores the empty string in the three required
fields: `workflow` is only ever set to a member of
{bespoke, differentiated}, `cefr_level` to a member of the five levels, and
`topic` to a value guarded by non-emptiness. -/
def ParamsWf (p : Params) : Prop :=
  p.workflow ≠ some "" ∧ p.cefr_level ≠ some "" ∧ p.topic ≠ some ""

theorem applyMatch_wf (p : Params) (kv : String × String) (h : ParamsWf p) :
    ParamsWf (applyMatch p kv) := by
  obtain ⟨h1, h2, h3⟩ := h
  simp only [applyMatch, ParamsWf]
  split_ifs with c1 c2 c3 c4 c5
  · refine ⟨?_, h2, h3⟩
    have hv : pyLower (pyStrip kv.2) = "bespoke" ∨
        pyLower (pyStrip kv.2) = "differentiated" := by simpa using c1.2
    simp only [ne_eq, Option.some.injEq]
    rcases hv with hv | hv <;> rw [hv] <;> decide
  · refine ⟨h1, ?_, h3⟩
    have hv : pyUpper (pyStrip kv.2) = "A1" ∨ pyUpper (pyStrip kv.2) = "A2" ∨
        pyUpper (pyStrip kv.2) = "B1" ∨ pyUpper (pyStrip kv.2) = "B2" ∨
        pyUpper (pyStrip kv.2) = "C1" := by simpa using c2.2
    simp only [ne_eq, Option.some.injEq]
    rcases hv with hv | hv | hv | hv | hv <;> rw [hv] <;> decide
  · refine ⟨h1, h2, ?_⟩
    simp only [ne_eq, Option.some.injEq]
    exact c3.2
  · exact ⟨h1, h2, h3⟩
  · exact ⟨h1, h2, h3⟩
  · exact ⟨h1, h2, h3⟩

theorem foldl_applyMatch_wf (kvs : List (String × String)) :
    ∀ p : Params, ParamsWf p → ParamsWf (kvs.foldl applyMatch p) := by
  induction kvs with
  | nil => intro p h; exact h
  | cons kv kvs ih => intro p h; exact ih _ (applyMatch_wf p kv h)

theorem scannedParams_wf (message : String) : ParamsWf (scannedParams message) := by
  rw [scannedParams]
  rcases findSubAux ("main text:".data) (pyLower message).data 0 with _ | idx
  · exact foldl_applyMatch_wf _ _ (by refine ⟨?_, ?_, ?_⟩ <;> simp [initParams])
  · exact foldl_applyMatch_wf _ _ (by refine ⟨?_, ?_, ?_⟩ <;> simp [initParams])

theorem truthyOptStr_false_iff (o : Option String) (ho : o ≠ some "") :
    truthyOptStr o = false ↔ o = none := by
  rcases o with _ | s
  · simp [truthyOptStr]
  · simp only [truthyOptStr, Bool.not_eq_false', beq_iff_eq]
    constructor
    · intro hs; exact absurd (by rw [hs]) ho
    · intro hs; cases hs

/-- C4: `parse_user_message` returns `None` exactly when `workflow`,
`cefr_level` or `topic` is missing after the scan, and in that case the
endpoint answers with a 400 client error and performs no embedding or
vector-index call. -/
theorem claim4_parse_failure :
    ∀ (message : String) (be : Backend),
      (parse_user_message message = none ↔
        ((scannedParams message).workflow = none ∨
         (scannedParams message).cefr_level = none ∨
         (scannedParams message).topic = none)) ∧
      (parse_user_message message = none →
        (get_context (msgArgs message) be).encodeCalls = [] ∧
        (get_context (msgArgs message) be).queryCalls = [] ∧
        ∃ m, (get_context (msgArgs message) be).response = ApiResponse.error m 400) := by
  intro message be
  obtain ⟨hw, hc, ht⟩ := scannedParams_wf message
  constructor
  · have hif : parse_user_message message = none ↔
        (truthyOptStr (scannedParams message).workflow = false ∨
         truthyOptStr (scannedParams message).cefr_level = false ∨
         truthyOptStr (scannedParams message).topic = false) := by
      rw [parse_user_message]
      by_cases h1 : (!truthyOptStr (scannedParams message).workflow
          || !truthyOptStr (scannedParams message).cefr_level
          || !truthyOptStr (scannedParams message).topic) = true
      · rw [if_pos h1]
        simp only [Bool.or_eq_true, Bool.not_eq_true'] at h1
        exact iff_of_true rfl (by tauto)
      · rw [if_neg h1]
        simp only [Bool.or_eq_true, Bool.not_eq_true'] at h1
        push_neg at h1
        exact iff_of_false (by simp) (by tauto)
    rw [hif, truthyOptStr_false_iff _ hw, truthyOptStr_false_iff _ hc,
      truthyOptStr_false_iff _ ht]
  · intro hnone
    by_cases hm : message = ""
    · subst hm
      exact ⟨rfl, rfl, "Missing user_message parameter.", rfl⟩
    · refine ⟨?_, ?_, "Could not parse required parameters from user_message.", ?_⟩ <;>
        simp [get_context, msgArgs, hm, hnone]

/-- C4 witness: the theorem instantiated at a message with no key/value
lines. -/
theorem claim4_witness :
    (get_context (msgArgs "Hello") trivialBackend).encodeCalls = [] ∧
    (get_context (msgArgs "Hello") trivialBackend).queryCalls = [] ∧
    ∃ m, (get_context (msgArgs "Hello") trivialBackend).response = ApiResponse.error m 400 :=
  (claim4_parse_failure "Hello" trivialBackend).2 (by decide)

/-- C5: parsing the documented example message yields workflow "bespoke"
(lower-cased), cefr_level "B1" (upper-cased), topic "Travel" and keywords
["airport","hotel"] (comma-split, whitespace-stripped); and in general one
scan step accepts `workflow` only if the (stripped) value lower-cases to
bespoke or differentiated (storing the lower-cased value), `level` only if
it upper-cases to one of A1,A2,B1,B2,C1 (storing the upper-cased value),
and `length` only if the value is entirely digits. -/
theorem claim5_parse_example_and_validation :
    parse_user_message "Workflow: bespoke\nLevel: b1\nTopic: Travel\nKeywords: airport, hotel\n" =
      some { workflow := some "bespoke", cefr_level := some "B1", topic := some "Travel",
             keywords := ["airport", "hotel"], length := none, main_text := none } ∧
    (∀ (p : Params) (kv : String × String),
      ((applyMatch p kv).workflow = p.workflow ∨
        (pyLower (pyStrip kv.2) ∈ ["bespoke", "differentiated"] ∧
          (applyMatch p kv).workflow = some (pyLower (pyStrip kv.2)))) ∧
      ((applyMatch p kv).cefr_level = p.cefr_level ∨
        (pyUpper (pyStrip kv.2) ∈ ["A1", "A2", "B1", "B2", "C1"] ∧
          (applyMatch p kv).cefr_level = some (pyUpper (pyStrip kv.2)))) ∧
      ((applyMatch p kv).length = p.length ∨
        (pyIsDigit (pyStrip kv.2) = true ∧
          (applyMatch p kv).length = some (pyStrip kv.2)))) := by
  refine ⟨by decide, ?_⟩
  intro p kv
  simp only [applyMatch]
  split_ifs with c1 c2 c3 c4 c5
  · exact ⟨Or.inr ⟨c1.2, rfl⟩, Or.inl rfl, Or.inl rfl⟩
  · exact ⟨Or.inl rfl, Or.inr ⟨c2.2, rfl⟩, Or.inl rfl⟩
  · exact ⟨Or.inl rfl, Or.inl rfl, Or.inl rfl⟩
  · exact ⟨Or.inl rfl, Or.inl rfl, Or.inl rfl⟩
  · exact ⟨Or.inl rfl, Or.inl rfl, Or.inr ⟨c5.2, rfl⟩⟩
  · exact ⟨Or.inl rfl, Or.inl rfl, Or.inl rfl⟩

theorem applyMatch_main_text (p : Params) (kv : String × String) :
    (applyMatch p kv).main_text = p.main_text := by
  simp only [applyMatch]
  split_ifs <;> rfl

theorem foldl_applyMatch_main_text (kvs : List (String × String)) :
    ∀ p : Params, (kvs.foldl applyMatch p).main_text = p.main_text := by
  induction kvs with
  | nil => intro p; rfl
  | cons kv kvs ih => intro p; rw [List.foldl_cons, ih, applyMatch_main_text]

/-- A message whose main text region contains a Key: value line. -/
def msgMainTextCorrupting : String :=
  "Workflow: bespoke\nLevel: B1\nTopic: Travel\nMain Text: stuff\nTopic: Corrupted"

/-- The same message without the Key: value line inside the main text. -/
def msgMainTextPlain : String :=
  "Workflow: bespoke\nLevel: B1\nTopic: Travel\nMain Text: stuff"

/-- The two-paragraph main-text example message of the spec. -/
def msgParagraphs : String :=
  "Workflow: bespoke\nLevel: B1\nTopic: Travel\nMain Text: Paragraph one.\n\nParagraph two."

/-- C3 counterexample: a `Topic: Corrupted` line inside the main text region
overwrites the previously scanned topic Travel, so the captured region is
not excluded from the key/value scan: with the line the parsed topic is
Corrupted, without it the parsed topic is Travel, although both main texts
start at the same label. -/
theorem claim3_counterexample :
    (parse_user_message msgMainTextCorrupting).map Params.topic = some (some "Corrupted") ∧
    (parse_user_message msgMainTextCorrupting).map Params.main_text =
      some (some "stuff\nTopic: Corrupted") ∧
    (parse_user_message msgMainTextPlain).map Params.topic = some (some "Travel") := by
  decide

/-- C3 (amended): when the message contains the label `main text:`
(case-insensitively, at index idx), `main_text` is the whitespace-stripped
remainder of the message after the label (`None` if empty) — internal blank
lines preserved — and exactly the key/value pairs whose key lower-cases and
strips to `main text` are excluded from the scan, so `Key: value` lines
inside the main-text region still participate and can overwrite other
fields.  On the documented example, both paragraphs are captured including the
blank line and the topic stays Travel. -/
theorem claim3_main_text :
    (∀ (message : String) (idx : Nat),
        findSubAux ("main text:".data) (pyLower message).data 0 = some idx →
        (scannedParams message).main_text =
          (if pyStrip ⟨message.data.drop (idx + 10)⟩ = "" then none
           else some (pyStrip ⟨message.data.drop (idx + 10)⟩)) ∧
        scannedParams message =
          ((findall message).filter
              (fun kv => !(pyStrip (pyLower kv.1) == "main text"))).foldl applyMatch
            { initParams with
                main_text :=
                  if pyStrip ⟨message.data.drop (idx + 10)⟩ = "" then none
                  else some (pyStrip ⟨message.data.drop (idx + 10)⟩) }) ∧
    (scannedParams msgParagraphs).main_text = some "Paragraph one.\n\nParagraph two." ∧
    (parse_user_message msgParagraphs).map Params.topic = some (some "Travel") := by
  refine ⟨?_, by decide, by decide⟩
  intro message idx hidx
  have hunfold : scannedParams message =
      ((findall message).filter
          (fun kv => !(pyStrip (pyLower kv.1) == "main text"))).foldl applyMatch
        { initParams with
            main_text :=
              if pyStrip ⟨message.data.drop (idx + 10)⟩ = "" then none
              else some (pyStrip ⟨message.data.drop (idx + 10)⟩) } := by
    rw [scannedParams, hidx]
  refine ⟨?_, hunfold⟩
  rw [hunfold, foldl_applyMatch_main_text]

/-- C3 witness: the amended theorem applied to the documented example message,
whose label starts at index 42. -/
theorem claim3_witness :
    (scannedParams msgParagraphs).main_text =
      (if pyStrip ⟨msgParagraphs.data.drop (42 + 10)⟩ = "" then none
       else some (pyStrip ⟨msgParagraphs.data.drop (42 + 10)⟩)) :=
  (claim3_main_text.1 msgParagraphs 42 (by decide)).1

/-- C8: for every successfully parsed request the endpoint makes exactly one
embedding call — on the topic string alone — and exactly one index query
with top_k 20 and a metadata filter requiring equality on cefr_level and
topic plus, only when keywords were supplied, an $in clause on keywords;
the success response carries the deduplicated filenames of the returned
matches. -/
theorem claim8_query_construction :
    ∀ (message : String) (be : Backend) (p : Params),
      parse_user_message message = some p →
      get_context (msgArgs message) be =
        ⟨ApiResponse.success
            (extractUnique (be.query (be.encode (p.topic.getD "")) 20
              ([("cefr_level", FilterCond.eq (p.cefr_level.getD "")),
                ("topic", FilterCond.eq (p.topic.getD ""))] ++
               (if p.keywords ≠ [] then [("keywords", FilterCond.inList p.keywords)]
                else []))))
            200,
          [p.topic.getD ""],
          [⟨be.encode (p.topic.getD ""), 20,
            [("cefr_level", FilterCond.eq (p.cefr_level.getD "")),
             ("topic", FilterCond.eq (p.topic.getD ""))] ++
            (if p.keywords ≠ [] then [("keywords", FilterCond.inList p.keywords)]
             else [])⟩]⟩ := by
  intro message be p h
  have hm : message ≠ "" := by
    intro he
    rw [he, show parse_user_message "" = none from rfl] at h
    cases h
  simp [get_context, msgArgs, hm, h]

/-- A parseable message supplying no keywords. -/
def msgNoKeywords : String := "Workflow: bespoke\nLevel: B1\nTopic: Travel"

/-- C8 witness: the theorem instantiated at a concrete message and backend;
with no keywords supplied the filter has exactly the two equality clauses. -/
theorem claim8_witness :
    get_context (msgArgs msgNoKeywords) trivialBackend =
      ⟨ApiResponse.success [] 200, ["Travel"],
       [⟨[], 20, [("cefr_level", FilterCond.eq "B1"), ("topic", FilterCond.eq "Travel")]⟩]⟩ := by
  have h := claim8_query_construction msgNoKeywords trivialBackend
    { workflow := some "bespoke", cefr_level := some "B1", topic := some "Travel",
      keywords := [], length := none, main_text := none } (by decide)
  exact h.trans (by rfl)

/-- C6: for every readable file, `process_file` produces one record per
non-empty stripped double-newline chunk, the i-th record having id
`<basename>_<i>`, the chunk text, and the shared metadata of the manifest entry;
and ingesting `sample.txt` containing "Para A\n\nPara B" with metadata
cefr_level C1, topic Nature, keywords [tree] upserts exactly one batch of
two records with ids sample.txt_0 and sample.txt_1 that agree on all
metadata and differ only in text, id and vector. -/
theorem claim6_chunking :
    (∀ (filepath : String) (readFile : String → Option String) (md : MetaEntry)
        (encode : String → List Float) (text : String),
        readFile filepath = some text →
        (process_file filepath readFile md encode).length = (pyChunks text).length ∧
        ∀ i : Nat,
          (process_file filepath readFile md encode)[i]? =
            ((pyChunks text)[i]?).map (fun chunk =>
              { id := basename filepath ++ "_" ++ toString i
                vector := encode chunk
                metadata := { cefr_level := md.cefr_level, filename := basename filepath,
                              topic := md.topic, keywords := md.keywords,
                              text := chunk } })) ∧
    (∀ (readFile : String → Option String) (encode : String → List Float),
        readFile (joinPath "C:\\PINECONE" "sample.txt") = some "Para A\n\nPara B" →
        runIngestion (some [⟨"sample.txt", "C1", "Nature", ["tree"]⟩]) "C:\\PINECONE"
            readFile encode =
          ⟨false,
           [[⟨"sample.txt_0", encode "Para A", ⟨"C1", "sample.txt", "Nature", ["tree"], "Para A"⟩⟩,
             ⟨"sample.txt_1", encode "Para B", ⟨"C1", "sample.txt", "Nature", ["tree"], "Para B"⟩⟩]],
           1, 2⟩) := by
  constructor
  · intro filepath readFile md encode text h
    have hpf : process_file filepath readFile md encode =
        (pyChunks text).enum.map (fun q =>
          { id := basename filepath ++ "_" ++ toString q.1
            vector := encode q.2
            metadata := { cefr_level := md.cefr_level, filename := basename filepath,
                          topic := md.topic, keywords := md.keywords, text := q.2 } }) := by
      rw [process_file, h]
    constructor
    · rw [hpf, List.length_map, List.enum_length]
    · intro i
      rw [hpf, List.getElem?_map, List.getElem?_enum, Option.map_map]
      cases hc : (pyChunks text)[i]? <;> simp [hc]
  · intro readFile encode h
    simp only [runIngestion, List.foldl_cons, List.foldl_nil, ingestStep, process_file, h]
    rfl

/-- A concrete filesystem containing only the sample file. -/
def sampleFs : String → Option String :=
  fun p => if p = "C:\\PINECONE\\sample.txt" then some "Para A\n\nPara B" else none

/-- A concrete embedding returning the empty vector. -/
def zeroEncode : String → List Float := fun _ => []

/-- C6 witness: the concrete part of the theorem applied to a concrete
filesystem and embedding. -/
theorem claim6_witness :
    runIngestion (some [⟨"sample.txt", "C1", "Nature", ["tree"]⟩]) "C:\\PINECONE"
        sampleFs zeroEncode =
      ⟨false,
       [[⟨"sample.txt_0", [], ⟨"C1", "sample.txt", "Nature", ["tree"], "Para A"⟩⟩,
         ⟨"sample.txt_1", [], ⟨"C1", "sample.txt", "Nature", ["tree"], "Para B"⟩⟩]],
       1, 2⟩ := by
  have h := claim6_chunking.2 sampleFs zeroEncode rfl
  exact h.trans (by rfl)

/-- C7: manifest load failure (missing or malformed manifest, modelled as
`load_metadata` returning `None`) is fatal — the job aborts with no upsert
batches and zero counters; a per-file read failure is recoverable — the
entry contributes no batch and processing of the remaining entries
continues exactly as if the entry were absent. -/
theorem claim7_failure_semantics :
    ∀ (dataDir : String) (readFile : String → Option String)
      (encode : String → List Float),
      (runIngestion none dataDir readFile encode = ⟨true, [], 0, 0⟩) ∧
      (∀ (pre post : List MetaEntry) (bad : MetaEntry),
        readFile (joinPath dataDir bad.filename) = none →
        runIngestion (some (pre ++ bad :: post)) dataDir readFile encode =
          runIngestion (some (pre ++ post)) dataDir readFile encode) := by
  intro dataDir readFile encode
  refine ⟨rfl, ?_⟩
  intro pre post bad h
  have hstep : ∀ acc : List (List IndexRecord) × Nat × Nat,
      ingestStep dataDir readFile encode acc bad = acc := by
    intro acc
    simp [ingestStep, process_file, h]
  simp [runIngestion, List.foldl_append, List.foldl_cons, hstep]

/-- C7 witness: the theorem instantiated at a filesystem with no files and a
one-entry manifest. -/
theorem claim7_witness :
    (runIngestion none "C:\\PINECONE" (fun _ => none) zeroEncode = ⟨true, [], 0, 0⟩) ∧
    runIngestion (some ([] ++ MetaEntry.mk "missing.txt" "C1" "Nature" ["tree"] :: []))
        "C:\\PINECONE" (fun _ => none) zeroEncode =
      runIngestion (some ([] ++ [])) "C:\\PINECONE" (fun _ => none) zeroEncode :=
  ⟨(claim7_failure_semantics "C:\\PINECONE" (fun _ => none) zeroEncode).1,
   (claim7_failure_semantics "C:\\PINECONE" (fun _ => none) zeroEncode).2 [] []
     ⟨"missing.txt", "C1", "Nature", ["tree"]⟩ rfl⟩

/-!
## Regression checks for the regex embedding

The following closed facts record the behaviour of `findall` and
`parse_user_message` on inputs that exercise the corner cases of the
backtracking semantics (values spanning lines when a value is empty,
colonless lines merging into the next key, keys of pure whitespace, CRLF
endings, trailing whitespace runs).  Each right-hand side equals the output
of the CPython `re.findall` / source `parse_user_message` on the same input.
-/

example : findall "Topic:\nNext" = [("Topic", "Next")] := by decide

example : findall "Keywords:\nLength: 200" = [("Keywords", "Length: 200")] := by decide

example : findall "no colon line\nFoo: x" = [("no colon line\nFoo", "x")] := by decide

example : findall ": x" = [] := by decide

example : findall "  : x" = [(" ", "x")] := by decide

example : findall "Key: val  \n\n\nNext: y" = [("Key", "val"), ("Next", "y")] := by decide

example : findall "a:b:c" = [("a", "b:c")] := by decide

example : findall "Key : value with colon: yes\n" = [("Key ", "value with colon: yes")] := by
  decide

example : findall "A: b\r\nB: c\r\n" = [("A", "b"), ("B", "c")] := by decide

example : findall "x:\n" = [("x", "")] := by decide

example : findall " K : v \n x " = [("K ", "v")] := by decide

example : findall "\n\nTopic: T" = [("Topic", "T")] := by decide

example :
    parse_user_message "Workflow: DIFFERENTIATED\nLevel: c1\nTopic: Space\nLength: 0450\nKeywords:  a , ,b ," =
      some { workflow := some "differentiated", cefr_level := some "C1", topic := some "Space",
             keywords := ["a", "b"], length := some "0450", main_text := none } := by
  decide

example :
    parse_user_message "Main Text:   \nWorkflow: bespoke\nLevel: B1\nTopic: T" = none := by
  decide

example :
    parse_user_message "Workflow: bespoke\nLevel: B1\nTopic: T\nmain text:" =
      some { workflow := some "bespoke", cefr_level := some "B1", topic := some "T",
             keywords := [], length := none, main_text := none } := by
  decide

example :
    (parse_user_message "MAIN TEXT: hidden\nWorkflow: bespoke\nLevel: B1\nTopic: T").map
        Params.main_text =
      some (some "hidden\nWorkflow: bespoke\nLevel: B1\nTopic: T") := by
  decide

example : parse_user_message "Workflow: other\nLevel: B1\nTopic: T" = none := by decide

example : parse_user_message "" = none := by decide

end CefrAgent
